import Mathlib

/-!
Verification of the td-websocket-V2 repository core logic.

The development shallowly embeds the JavaScript functions of
`src/server.js` and `src/public/builder.js` (the latter duplicated in
`src/unnamed/part_003`, with `migrateOldConfig` also in
`src/unnamed/part_002`):

* a JSON-value model `JVal` with JavaScript truthiness (`truthy`) and
  property access (`getField`, where a missing key plays the role of
  `undefined`);
* `migrateOldConfig`, `validateConfig` from `builder.js`;
* `sanitizeName` from `builder.js` (regex passes modelled as list
  transformations over the string's characters);
* the page-management operations `addPage`, `switchPage`, `deletePage`
  acting on the builder state;
* the WebSocket message handler of `server.js` (`handleFrame`,
  `broadcastToOthers`), with `JSON.parse` modelled by an
  `Option JVal` argument (`none` = unparseable frame).
-/

/-- JSON-like JavaScript values as they occur in the configs handled by
the repository.  Numbers are restricted to integers (no claim involves
non-integral arithmetic); object field order is the literal order. -/
inductive JVal where
  | null : JVal
  | bool : Bool → JVal
  | num : Int → JVal
  | str : String → JVal
  | arr : List JVal → JVal
  | obj : List (String × JVal) → JVal

/-- Property access `v.k`: `none` models JavaScript `undefined`
(absent field, or access on a non-object). -/
def getField (v : JVal) (k : String) : Option JVal :=
  match v with
  | JVal.obj fields => (fields.find? (fun f => f.1 = k)).map (fun f => f.2)
  | _ => none

/-- JavaScript truthiness of a value: `null`, `false`, `0` and `""` are
falsy; arrays and objects are always truthy. -/
def truthy : JVal → Bool
  | JVal.null => false
  | JVal.bool b => b
  | JVal.num n => decide (n ≠ 0)
  | JVal.str s => decide (s ≠ "")
  | JVal.arr _ => true
  | JVal.obj _ => true

/-- Truthiness of a possibly-`undefined` value (`undefined` is falsy). -/
def truthyOpt : Option JVal → Bool
  | none => false
  | some v => truthy v

/-- JavaScript `x || d`: the value itself when truthy, else the default. -/
def jsOr (x : Option JVal) (d : JVal) : JVal :=
  if truthyOpt x then x.getD d else d

/-- Embedding of `migrateOldConfig` (`src/public/builder.js` lines
53–69): if `config.controls` is truthy and `config.pages` is falsy,
wrap into the paged format using `||` fallbacks for `version` and
`name`; otherwise return the document unchanged. -/
def migrateOldConfig (config : JVal) : JVal :=
  if truthyOpt (getField config "controls") && !truthyOpt (getField config "pages") then
    JVal.obj
      [("version", jsOr (getField config "version") (JVal.str "1.0")),
       ("pages", JVal.arr
         [JVal.obj
           [("id", JVal.str "page1"),
            ("name", jsOr (getField config "name") (JVal.str "Main")),
            ("controls", (getField config "controls").getD JVal.null)]])]
  else
    config

/-- Embedding of the per-control check in `validateConfig`:
`c.id && c.type && c.label && c.chop`. -/
def controlOk (c : JVal) : Bool :=
  truthyOpt (getField c "id") && truthyOpt (getField c "type") &&
    truthyOpt (getField c "label") && truthyOpt (getField c "chop")

/-- Embedding of the per-page check in `validateConfig`:
`page.id && page.name && Array.isArray(page.controls) &&
page.controls.every(...)`. -/
def pageOk (page : JVal) : Bool :=
  truthyOpt (getField page "id") && truthyOpt (getField page "name") &&
    (match getField page "controls" with
     | some (JVal.arr cs) => cs.all controlOk
     | _ => false)

/-- Embedding of `validateConfig` (`src/public/builder.js` lines
974–994): reject falsy documents and documents with falsy `version`;
then check the paged format, else the legacy `controls` format. -/
def validateConfig (config : JVal) : Bool :=
  if !truthy config || !truthyOpt (getField config "version") then
    false
  else
    match getField config "pages" with
    | some (JVal.arr pages) => pages.all pageOk
    | _ =>
      match getField config "controls" with
      | some (JVal.arr cs) => cs.all controlOk
      | _ => false

/-- One entry of the server's `clients` set: the connection identity
and whether `readyState === WebSocket.OPEN`.  Identity comparison
(`client !== sender`) is modelled by the numeric `id`. -/
structure Client where
  id : Nat
  isOpen : Bool
deriving DecidableEq

/-- Embedding of `broadcastToOthers` (`src/server.js` lines 72–79):
send the (re-serialized) data to every client other than the sender
whose connection is open.  The result lists the `(recipient, payload)`
pairs in client-set order. -/
def broadcastToOthers (sender : Nat) (data : JVal) (clients : List Client) :
    List (Nat × JVal) :=
  (clients.filter (fun c => c.id != sender && c.isOpen)).map (fun c => (c.id, data))

/-- The error reply `{type: "error", message: "Invalid JSON format"}`
sent by `server.js` when `JSON.parse` throws. -/
def errorInvalidJson : JVal :=
  JVal.obj [("type", JVal.str "error"), ("message", JVal.str "Invalid JSON format")]

/-- Effect of handling one inbound frame: messages sent back to the
sender, messages forwarded to other clients, and whether the handler
closed the session (the `message` handler of `server.js` never does). -/
structure FrameResult where
  replies : List JVal
  forwards : List (Nat × JVal)
  closed : Bool

/-- Embedding of the `ws.on('message')` handler (`src/server.js` lines
31–47).  `JSON.parse` is modelled by the `parsed` argument: `some data`
when the frame parses, `none` when parsing throws.  A parsed message is
broadcast to all other clients unconditionally; an unparseable frame is
answered with exactly one `errorInvalidJson` reply to the sender. -/
def handleFrame (clients : List Client) (sender : Nat) (parsed : Option JVal) :
    FrameResult :=
  match parsed with
  | some data =>
    { replies := [], forwards := broadcastToOthers sender data clients, closed := false }
  | none =>
    { replies := [errorInvalidJson], forwards := [], closed := false }

/-- Handling of a whole inbound frame sequence on one session: each
frame is processed independently by `handleFrame` (the handler installs
no state and never tears the session down). -/
def processFrames (clients : List Client) (sender : Nat) :
    List (Option JVal) → List FrameResult
  | [] => []
  | f :: rest => handleFrame clients sender f :: processFrames clients sender rest

/-- One page of the builder state (`state.config.pages` entries). -/
structure BuilderPage where
  id : String
  name : String
  controls : List JVal

/-- The builder's `state.config` object. -/
structure BuilderConfig where
  version : String
  pages : List BuilderPage

/-- The mutable builder `state` of `src/public/builder.js` (the fields
the page-management operations touch). -/
structure BuilderState where
  config : BuilderConfig
  currentPageId : String
  selectedControlId : Option String
  nextPageId : Nat

/-- Embedding of `addPage` (`src/public/builder.js` lines 1043–1061):
push a fresh page `page{nextPageId}`, bump the counter and switch to
the new page.  (DOM re-rendering and persistence are outside the
model.) -/
def addPage (s : BuilderState) : BuilderState :=
  let pageId := "page" ++ toString s.nextPageId
  let pageName := "Page " ++ toString s.nextPageId
  { s with
    config := { s.config with
      pages := s.config.pages ++ [{ id := pageId, name := pageName, controls := [] }] }
    nextPageId := s.nextPageId + 1
    currentPageId := pageId }

/-- Embedding of `switchPage`: set the current page and clear the
selection. -/
def switchPage (s : BuilderState) (pageId : String) : BuilderState :=
  { s with currentPageId := pageId, selectedControlId := none }

/-- Embedding of `deletePage` (`src/public/builder.js` lines
1063–1087): refuse when only one page remains (the code only alerts),
return unchanged when the id is unknown, otherwise splice the page out,
move `currentPageId` to the first remaining page if the current page
was deleted, and clear the selection. -/
def deletePage (s : BuilderState) (pageId : String) : BuilderState :=
  if s.config.pages.length ≤ 1 then s
  else
    match s.config.pages.findIdx? (fun p => p.id = pageId) with
    | none => s
    | some i =>
      let pages := s.config.pages.eraseIdx i
      let current :=
        if s.currentPageId = pageId then
          (pages.head?.map (fun p => p.id)).getD s.currentPageId
        else s.currentPageId
      { s with
        config := { s.config with pages := pages }
        currentPageId := current
        selectedControlId := none }

/-- Characters matched by the regex class `[a-zA-Z0-9_]` (its complement
is replaced by `_` in `sanitizeName`). -/
def isWordChar (c : Char) : Bool :=
  (decide ('a' ≤ c) && decide (c ≤ 'z')) || (decide ('A' ≤ c) && decide (c ≤ 'Z')) ||
    (decide ('0' ≤ c) && decide (c ≤ '9')) || c == '_'

/-- The underscore test used by the collapsing and stripping passes. -/
def isUnd (c : Char) : Bool := c == '_'

/-- First pass of `sanitizeName`: `name.replace(/[^a-zA-Z0-9_]/g, '_')`. -/
def replaceBad (l : List Char) : List Char :=
  l.map (fun c => if isWordChar c then c else '_')

/-- Second pass: `replace(/_+/g, '_')` — every maximal run of
underscores becomes a single underscore. -/
def collapseU (l : List Char) : List Char :=
  l.foldr (fun c acc => if isUnd c && acc.head? == some '_' then acc else c :: acc) []

/-- Third pass: `replace(/^_+|_+$/g, '')` — drop the leading run and
the trailing run of underscores. -/
def stripU (l : List Char) : List Char :=
  ((l.dropWhile isUnd).reverse.dropWhile isUnd).reverse

/-- ASCII lowercasing of one character.  `sanitizeName` only ever
lowercases characters from `[A-Za-z0-9_]`, on which JavaScript
`toLowerCase` is exactly this ASCII mapping. -/
def lowerChar (c : Char) : Char :=
  if decide ('A' ≤ c) && decide (c ≤ 'Z') then Char.ofNat (c.toNat + 32) else c

/-- Fourth pass: `toLowerCase()`. -/
def lowerAll (l : List Char) : List Char := l.map lowerChar

/-- The four regex/lowercase passes of `sanitizeName` on the character
list of the input. -/
def sanitizeCore (l : List Char) : List Char :=
  lowerAll (stripU (collapseU (replaceBad l)))

/-- Embedding of `sanitizeName` (`src/public/builder.js` lines 40–51):
the four passes followed by the `|| 'page'` empty-string fallback.  The
Lean function is total, mirroring that the JavaScript function cannot
throw on string input. -/
def sanitizeName (s : String) : String :=
  let r := sanitizeCore s.data
  if r.isEmpty then "page" else String.mk r

/-- Modelled from the spec wording of §4.1 step 2 ("collapse runs of
consecutive `_` into a single `_`"): a leading underscore swallows the
whole following run. -/
def specCollapse : List Char → List Char
  | [] => []
  | c :: rest =>
    if c = '_' then '_' :: specCollapse (rest.dropWhile isUnd)
    else c :: specCollapse rest
termination_by l => l.length
decreasing_by
  · simpa using Nat.lt_succ_of_le (List.dropWhile_sublist isUnd).length_le
  · simp

/-- The spec's sanitization pipeline (§4.1 steps 1–5), with step 2
given by `specCollapse`; steps 1, 3 and 4 are worded exactly as the
code performs them. -/
def sanitizeSpec (s : String) : String :=
  let r := lowerAll (stripU (specCollapse (replaceBad s.data)))
  if r.isEmpty then "page" else String.mk r

theorem collapseU_nil : collapseU [] = [] := rfl

theorem collapseU_cons (c : Char) (l : List Char) :
    collapseU (c :: l) =
      if isUnd c && (collapseU l).head? == some '_' then collapseU l
      else c :: collapseU l := rfl

theorem head?_collapseU_cons_underscore (l : List Char) :
    (collapseU ('_' :: l)).head? = some '_' := by
  rw [collapseU_cons]
  split
  · rename_i h
    simp only [Bool.and_eq_true, beq_iff_eq] at h
    exact h.2
  · rfl

theorem collapseU_cons_underscore (l : List Char) :
    collapseU ('_' :: l) = '_' :: collapseU (l.dropWhile isUnd) := by
  induction l with
  | nil => rfl
  | cons c rest ih =>
    by_cases hc : c = '_'
    · subst hc
      rw [collapseU_cons ('_' : Char) ('_' :: rest), if_pos, ih,
        List.dropWhile_cons_of_pos (by rfl)]
      simp [isUnd, head?_collapseU_cons_underscore]
    · rw [List.dropWhile_cons_of_neg (by simp [isUnd, hc])]
      rw [collapseU_cons ('_' : Char) (c :: rest), if_neg]
      rw [collapseU_cons c rest]
      have hu : isUnd c = false := by simp [isUnd, hc]
      simp only [hu, Bool.false_and, Bool.false_eq_true, if_false]
      simp [hc]

theorem collapseU_eq_specCollapse (l : List Char) : collapseU l = specCollapse l := by
  induction l using specCollapse.induct with
  | case1 => rw [specCollapse.eq_def]; rfl
  | case2 rest ih =>
    rw [collapseU_cons_underscore, specCollapse.eq_def]
    simp [ih]
  | case3 c rest hc ih =>
    rw [specCollapse.eq_def]
    simp only [if_neg hc]
    rw [collapseU_cons, if_neg, ih]
    simp [isUnd, hc]

/-- Claim C1: for every input string, `sanitizeName` returns exactly the
result of the spec's five-step pipeline (replace non-word characters by
`_`, collapse runs of `_`, strip leading/trailing `_`, lowercase, fall
back to `"page"` when empty); in particular
`sanitizeName "Color 5" = "color_5"` and `sanitizeName "!!!" = "page"`.
Totality of the Lean function reflects that the JavaScript function
never throws on string input. -/
theorem sanitizeName_matches_spec_pipeline :
    (∀ s : String, sanitizeName s = sanitizeSpec s) ∧
      sanitizeName "Color 5" = "color_5" ∧ sanitizeName "!!!" = "page" := by
  refine ⟨fun s => ?_, by decide, by decide⟩
  simp [sanitizeName, sanitizeSpec, sanitizeCore, collapseU_eq_specCollapse]

/-- Modelled from the claim wording of C2 (spec §4.2, `??` fallbacks):
the wrapped document with `version`/`name` falling back only when the
field is absent. -/
def migrateClaimC2 (doc : JVal) : JVal :=
  JVal.obj
    [("version", (getField doc "version").getD (JVal.str "1.0")),
     ("pages", JVal.arr
       [JVal.obj
         [("id", JVal.str "page1"),
          ("name", (getField doc "name").getD (JVal.str "Main")),
          ("controls", (getField doc "controls").getD JVal.null)]])]

/-- Legacy document with a present-but-empty `version`: the code's `||`
fallback replaces it by `"1.0"`, the claim's "if present" keeps `""`. -/
def c2cex : JVal :=
  JVal.obj [("version", JVal.str ""), ("name", JVal.str "My UI"), ("controls", JVal.arr [])]

/-- Counterexample to claim C2 as stated: `c2cex` has an array
`controls` field and no `pages` field, yet `migrateOldConfig` does not
return the claimed result (its `version` is `"1.0"`, not the present
`version` value `""`). -/
theorem migrateOldConfig_not_claimC2_on_empty_version :
    getField c2cex "controls" = some (JVal.arr []) ∧
      getField c2cex "pages" = none ∧
      migrateOldConfig c2cex ≠ migrateClaimC2 c2cex := by
  refine ⟨rfl, rfl, fun h => ?_⟩
  have h2 : (some (JVal.str "1.0") : Option JVal) = some (JVal.str "") := by
    calc (some (JVal.str "1.0") : Option JVal)
        = getField (migrateOldConfig c2cex) "version" := rfl
      _ = getField (migrateClaimC2 c2cex) "version" := by rw [h]
      _ = some (JVal.str "") := rfl
  simp at h2

/-- Claim C2 amended: on the legacy shape (`controls` an array, `pages`
absent), `migrateOldConfig` wraps the document, with `version` and
`name` falling back to `"1.0"` / `"Main"` whenever the field is absent
or falsy (JavaScript `||`), not only when absent. -/
theorem migrateOldConfig_legacy_wrap (doc : JVal) (xs : List JVal)
    (hc : getField doc "controls" = some (JVal.arr xs))
    (hp : getField doc "pages" = none) :
    migrateOldConfig doc =
      JVal.obj
        [("version", jsOr (getField doc "version") (JVal.str "1.0")),
         ("pages", JVal.arr
           [JVal.obj
             [("id", JVal.str "page1"),
              ("name", jsOr (getField doc "name") (JVal.str "Main")),
              ("controls", JVal.arr xs)]])] := by
  simp [migrateOldConfig, hc, hp, truthyOpt, truthy]

/-- Closed instance of `migrateOldConfig_legacy_wrap`, realizing the
claim's own example `{version:"1.0", name:"My UI", controls:[...]}`. -/
theorem migrateOldConfig_legacy_wrap_witness :
    migrateOldConfig
        (JVal.obj [("version", JVal.str "1.0"), ("name", JVal.str "My UI"),
          ("controls", JVal.arr [JVal.str "c"])]) =
      JVal.obj
        [("version", jsOr (some (JVal.str "1.0")) (JVal.str "1.0")),
         ("pages", JVal.arr
           [JVal.obj
             [("id", JVal.str "page1"),
              ("name", jsOr (some (JVal.str "My UI")) (JVal.str "Main")),
              ("controls", JVal.arr [JVal.str "c"])]])] :=
  migrateOldConfig_legacy_wrap _ [JVal.str "c"] rfl rfl

/-- Current-format test the migrator's claim C3 speaks about:
`doc.pages` is an array. -/
def isCurrentFormatB (doc : JVal) : Bool :=
  match getField doc "pages" with
  | some (JVal.arr _) => true
  | _ => false

/-- Legacy-shape test of claim C3: `doc.controls` an array and
`doc.pages` absent. -/
def isLegacyShapeB (doc : JVal) : Bool :=
  (match getField doc "controls" with
   | some (JVal.arr _) => true
   | _ => false) && (getField doc "pages").isNone

/-- Counterexample to claim C3 as stated: the empty object is neither
current format nor the legacy shape, yet `migrateOldConfig` signals no
error — it returns the document itself unchanged (the function has no
error outcome at all). -/
theorem migrateOldConfig_no_schemaError_on_empty_object :
    isCurrentFormatB (JVal.obj []) = false ∧
      isLegacyShapeB (JVal.obj []) = false ∧
      migrateOldConfig (JVal.obj []) = JVal.obj [] :=
  ⟨rfl, rfl, rfl⟩

/-- Claim C3 amended: for every document outside the one legacy shape
(truthy `controls` with falsy/absent `pages`), `migrateOldConfig`
returns the document unchanged; it never signals a `SchemaError` and
never auto-guesses any other shape. -/
theorem migrateOldConfig_passthrough (doc : JVal)
    (h : (truthyOpt (getField doc "controls") &&
        !truthyOpt (getField doc "pages")) = false) :
    migrateOldConfig doc = doc := by
  simp [migrateOldConfig, h]

/-- Closed instance of `migrateOldConfig_passthrough` at the empty
object. -/
theorem migrateOldConfig_passthrough_witness :
    migrateOldConfig (JVal.obj []) = JVal.obj [] :=
  migrateOldConfig_passthrough _ rfl

/-- Claim C7: migration is idempotent on every document, and a document
whose `pages` field is an array (current format) is returned
unchanged. -/
theorem migrateOldConfig_idempotent :
    (∀ doc : JVal, migrateOldConfig (migrateOldConfig doc) = migrateOldConfig doc) ∧
      (∀ (doc : JVal) (xs : List JVal),
        getField doc "pages" = some (JVal.arr xs) → migrateOldConfig doc = doc) := by
  constructor
  · intro doc
    by_cases h : (truthyOpt (getField doc "controls") &&
        !truthyOpt (getField doc "pages")) = true
    · have hmig : migrateOldConfig doc =
          JVal.obj
            [("version", jsOr (getField doc "version") (JVal.str "1.0")),
             ("pages", JVal.arr
               [JVal.obj
                 [("id", JVal.str "page1"),
                  ("name", jsOr (getField doc "name") (JVal.str "Main")),
                  ("controls", (getField doc "controls").getD JVal.null)]])] := by
        rw [migrateOldConfig, if_pos h]
      rw [hmig]
      apply migrateOldConfig_passthrough
      simp [getField, List.find?, truthyOpt]
    · have h' := eq_false_of_ne_true h
      rw [migrateOldConfig_passthrough doc h', migrateOldConfig_passthrough doc h']
  · intro doc xs hp
    apply migrateOldConfig_passthrough
    simp [hp, truthyOpt, truthy]

/-- Closed instance of `migrateOldConfig_idempotent` at a one-field
current-format document. -/
theorem migrateOldConfig_idempotent_witness :
    migrateOldConfig (migrateOldConfig (JVal.obj [("pages", JVal.arr [])])) =
        migrateOldConfig (JVal.obj [("pages", JVal.arr [])]) ∧
      migrateOldConfig (JVal.obj [("pages", JVal.arr [])]) =
        JVal.obj [("pages", JVal.arr [])] :=
  ⟨migrateOldConfig_idempotent.1 _, migrateOldConfig_idempotent.2 _ [] rfl⟩

/-- Current-format document with no `version` field whose pages all
satisfy the claimed page conditions (vacuously: there are none). -/
def c6cex : JVal := JVal.obj [("pages", JVal.arr [])]

/-- Counterexample to claim C6 as stated: `c6cex.pages` is an array and
every page (vacuously) has the required fields, yet `validateConfig`
returns `false`, because the code first requires a truthy `version`
field, which the claim omits. -/
theorem validateConfig_not_pages_only :
    getField c6cex "pages" = some (JVal.arr []) ∧
      ([] : List JVal).all pageOk = true ∧
      validateConfig c6cex = false :=
  ⟨rfl, rfl, rfl⟩

/-- Claim C6 amended: for a current-format document (`pages` an array),
`validateConfig` returns `true` iff the document's `version` field is
truthy AND every page has truthy `id` and `name`, an array `controls`,
and every control has truthy `id`, `type`, `label` and `chop`. -/
theorem validateConfig_paged_characterization (doc : JVal) (xs : List JVal)
    (h : getField doc "pages" = some (JVal.arr xs)) :
    validateConfig doc = (truthyOpt (getField doc "version") && xs.all pageOk) := by
  have ht : truthy doc = true := by
    cases doc <;> first | rfl | simp [getField] at h
  simp only [validateConfig, ht, h]
  cases htv : truthyOpt (getField doc "version") <;> simp [htv]

/-- Closed instance of `validateConfig_paged_characterization` at a
well-formed one-page document. -/
theorem validateConfig_paged_characterization_witness :
    validateConfig
        (JVal.obj [("version", JVal.str "1.0"),
          ("pages", JVal.arr
            [JVal.obj [("id", JVal.str "page1"), ("name", JVal.str "Main"),
              ("controls", JVal.arr [])]])]) =
      (truthyOpt (some (JVal.str "1.0")) &&
        ([JVal.obj [("id", JVal.str "page1"), ("name", JVal.str "Main"),
          ("controls", JVal.arr [])]] : List JVal).all pageOk) :=
  validateConfig_paged_characterization _ _ rfl

/-- Claim C4: an unparseable frame produces exactly one
`errorInvalidJson` reply to the sender, nothing is forwarded, the
session is not closed, and subsequent frames are processed exactly as
they would be on their own. -/
theorem handleFrame_invalid_json (clients : List Client) (sender : Nat)
    (rest : List (Option JVal)) :
    handleFrame clients sender none =
        { replies := [errorInvalidJson], forwards := [], closed := false } ∧
      processFrames clients sender (none :: rest) =
        { replies := [errorInvalidJson], forwards := [], closed := false } ::
          processFrames clients sender rest :=
  ⟨rfl, rfl⟩

/-- Control message that parses as JSON but lacks the `value` field the
spec's §4.5 table requires for its declared type `parameter`. -/
def c5msg : JVal :=
  JVal.obj [("type", JVal.str "parameter"), ("id", JVal.str "slider1"),
    ("label", JVal.str "Speed"), ("channelGroup", JVal.str "main_controls")]

/-- Counterexample to claim C5 as stated: the `parameter` message with a
missing `value` field is NOT treated like malformed JSON; the server
sends no error reply and forwards the message to the other open
client. -/
theorem handleFrame_missing_field_not_error :
    getField c5msg "value" = none ∧
      (handleFrame [⟨1, true⟩, ⟨2, true⟩] 1 (some c5msg)).replies = [] ∧
      (handleFrame [⟨1, true⟩, ⟨2, true⟩] 1 (some c5msg)).forwards = [(2, c5msg)] :=
  ⟨rfl, rfl, rfl⟩

/-- Claim C5 amended: the server performs no per-type field validation;
a JSON-parseable message missing a required field is relayed to the
other open clients exactly like any other parsed message, and no error
reply is sent. -/
theorem handleFrame_no_field_validation (clients : List Client) (sender : Nat)
    (msg : JVal) (h : getField msg "value" = none) :
    handleFrame clients sender (some msg) =
      { replies := [], forwards := broadcastToOthers sender msg clients,
        closed := false } :=
  rfl

/-- Closed instance of `handleFrame_no_field_validation` at the
`value`-less parameter message. -/
theorem handleFrame_no_field_validation_witness :
    handleFrame [⟨1, true⟩, ⟨2, true⟩] 1 (some c5msg) =
      { replies := [], forwards := broadcastToOthers 1 c5msg [⟨1, true⟩, ⟨2, true⟩],
        closed := false } :=
  handleFrame_no_field_validation [⟨1, true⟩, ⟨2, true⟩] 1 c5msg rfl

/-- Claim C10: every parsed frame is forwarded verbatim to exactly the
other clients whose connection is open (in client order), with no reply
to the sender, no session close, and never echoed back to the
originating client. -/
theorem handleFrame_relays_to_others (clients : List Client) (sender : Nat)
    (data : JVal) :
    handleFrame clients sender (some data) =
        { replies := [],
          forwards := (clients.filter (fun c => c.id != sender && c.isOpen)).map
            (fun c => (c.id, data)),
          closed := false } ∧
      ∀ p ∈ (handleFrame clients sender (some data)).forwards,
        p.1 ≠ sender ∧ p.2 = data := by
  refine ⟨rfl, fun p hp => ?_⟩
  simp only [handleFrame, broadcastToOthers, List.mem_map, List.mem_filter] at hp
  obtain ⟨c, ⟨_, hc⟩, rfl⟩ := hp
  simp only [Bool.and_eq_true, bne_iff_ne, ne_eq] at hc
  exact ⟨hc.1, rfl⟩

/-- Closed instance of `handleFrame_relays_to_others` on a three-client
set (one sender, one open peer, one closed peer). -/
theorem handleFrame_relays_to_others_witness :
    handleFrame [⟨1, true⟩, ⟨2, true⟩, ⟨3, false⟩] 1 (some c5msg) =
        { replies := [],
          forwards := (([⟨1, true⟩, ⟨2, true⟩, ⟨3, false⟩] : List Client).filter
            (fun c => c.id != 1 && c.isOpen)).map (fun c => (c.id, c5msg)),
          closed := false } ∧
      ∀ p ∈ (handleFrame [⟨1, true⟩, ⟨2, true⟩, ⟨3, false⟩] 1 (some c5msg)).forwards,
        p.1 ≠ 1 ∧ p.2 = c5msg :=
  handleFrame_relays_to_others [⟨1, true⟩, ⟨2, true⟩, ⟨3, false⟩] 1 c5msg

/-- Claim C9: starting from a state with at least one page, `addPage`,
`switchPage` and `deletePage` all leave at least one page, and
`deletePage` refuses (leaving the whole state unchanged) when exactly
one page remains. -/
theorem page_ops_preserve_nonempty_pages (s : BuilderState) (pid qid : String)
    (h : 1 ≤ s.config.pages.length) :
    1 ≤ (addPage s).config.pages.length ∧
      1 ≤ (switchPage s pid).config.pages.length ∧
      1 ≤ (deletePage s qid).config.pages.length ∧
      (s.config.pages.length = 1 → deletePage s qid = s) := by
  refine ⟨?_, h, ?_, ?_⟩
  · simp [addPage]
  · rw [deletePage]
    split
    · exact h
    · rename_i hgt
      split
      · exact h
      · simp only [List.length_eraseIdx]
        split <;> omega
  · intro h1
    rw [deletePage, if_pos (by omega)]

/-- The builder's initial state (`state` literal at the top of
`builder.js`), used as a concrete instance for the page operations. -/
def initialBuilderState : BuilderState :=
  { config := { version := "1.0"
                pages := [{ id := "page1", name := "Main", controls := [] }] }
    currentPageId := "page1"
    selectedControlId := none
    nextPageId := 2 }

/-- Closed instance of `page_ops_preserve_nonempty_pages` at the
builder's initial state. -/
theorem page_ops_preserve_nonempty_pages_witness :
    1 ≤ (addPage initialBuilderState).config.pages.length ∧
      1 ≤ (switchPage initialBuilderState "page1").config.pages.length ∧
      1 ≤ (deletePage initialBuilderState "page1").config.pages.length ∧
      (initialBuilderState.config.pages.length = 1 →
        deletePage initialBuilderState "page1" = initialBuilderState) :=
  page_ops_preserve_nonempty_pages initialBuilderState "page1" "page1" (by decide)

/-- No two adjacent underscores occur in the list (the shape `collapseU`
establishes). -/
def NoAdj : List Char → Prop
  | [] => True
  | [_] => True
  | a :: b :: rest => ¬(a = '_' ∧ b = '_') ∧ NoAdj (b :: rest)

theorem noAdj_cons_iff (a : Char) (l : List Char) :
    NoAdj (a :: l) ↔ ¬(a = '_' ∧ l.head? = some '_') ∧ NoAdj l := by
  cases l <;> simp [NoAdj]

theorem noAdj_collapseU (l : List Char) : NoAdj (collapseU l) := by
  induction l with
  | nil => trivial
  | cons c rest ih =>
    rw [collapseU_cons]
    split
    · exact ih
    · rename_i h
      rw [noAdj_cons_iff]
      refine ⟨fun hc => ?_, ih⟩
      exact h (by simp [isUnd, hc.1, hc.2])

theorem collapseU_of_noAdj (l : List Char) (h : NoAdj l) : collapseU l = l := by
  induction l with
  | nil => rfl
  | cons c rest ih =>
    rw [noAdj_cons_iff] at h
    rw [collapseU_cons, ih h.2, if_neg]
    intro hcond
    simp only [isUnd, Bool.and_eq_true, beq_iff_eq] at hcond
    exact h.1 ⟨hcond.1, hcond.2⟩

theorem dropWhile_head_not (p : Char → Bool) (l : List Char) :
    ∀ c, (l.dropWhile p).head? = some c → p c = false := by
  induction l with
  | nil => intro c hc; simp [List.dropWhile] at hc
  | cons a rest ih =>
    intro c hc
    by_cases hp : p a = true
    · rw [List.dropWhile_cons_of_pos hp] at hc
      exact ih c hc
    · rw [List.dropWhile_cons_of_neg hp] at hc
      simp at hc
      rw [← hc]
      exact eq_false_of_ne_true hp

theorem dropWhile_id_of_head (p : Char → Bool) (l : List Char)
    (h : ∀ c, l.head? = some c → p c = false) : l.dropWhile p = l := by
  cases l with
  | nil => rfl
  | cons a rest =>
    rw [List.dropWhile_cons_of_neg]
    simp [h a rfl]

theorem noAdj_tail (a : Char) (l : List Char) (h : NoAdj (a :: l)) : NoAdj l :=
  ((noAdj_cons_iff a l).mp h).2

theorem noAdj_dropWhile (p : Char → Bool) (l : List Char) (h : NoAdj l) :
    NoAdj (l.dropWhile p) := by
  induction l with
  | nil => trivial
  | cons a rest ih =>
    by_cases hp : p a = true
    · rw [List.dropWhile_cons_of_pos hp]
      exact ih (noAdj_tail a rest h)
    · rwa [List.dropWhile_cons_of_neg hp]

theorem noAdj_append_single (l : List Char) (c : Char) :
    NoAdj (l ++ [c]) ↔ NoAdj l ∧ ¬(l.getLast? = some '_' ∧ c = '_') := by
  induction l with
  | nil => simp [NoAdj]
  | cons a rest ih =>
    cases rest with
    | nil => simp [NoAdj]
    | cons b m =>
      have hgl : (a :: b :: m).getLast? = (b :: m).getLast? := List.getLast?_cons_cons
      rw [List.cons_append, List.cons_append]
      rw [show NoAdj (a :: b :: (m ++ [c])) ↔
        ¬(a = '_' ∧ b = '_') ∧ NoAdj (b :: (m ++ [c])) from Iff.rfl]
      rw [← List.cons_append, ih, hgl]
      rw [show NoAdj (a :: b :: m) ↔ ¬(a = '_' ∧ b = '_') ∧ NoAdj (b :: m) from Iff.rfl]
      tauto

theorem noAdj_reverse (l : List Char) : NoAdj l.reverse ↔ NoAdj l := by
  induction l with
  | nil => simp
  | cons a rest ih =>
    rw [List.reverse_cons, noAdj_append_single, ih, List.getLast?_reverse,
      noAdj_cons_iff]
    tauto

theorem getLast?_dropWhile (p : Char → Bool) (l : List Char)
    (h : l.dropWhile p ≠ []) : (l.dropWhile p).getLast? = l.getLast? := by
  induction l with
  | nil => exact absurd rfl h
  | cons a rest ih =>
    by_cases hp : p a = true
    · rw [List.dropWhile_cons_of_pos hp] at h ⊢
      cases rest with
      | nil => exact absurd rfl h
      | cons b m => rw [ih h, List.getLast?_cons_cons]
    · rw [List.dropWhile_cons_of_neg hp]

theorem stripU_head (l : List Char) :
    ∀ c, (stripU l).head? = some c → isUnd c = false := by
  intro c hc
  rw [stripU, List.head?_reverse] at hc
  have hne : (l.dropWhile isUnd).reverse.dropWhile isUnd ≠ [] := by
    intro he
    rw [he] at hc
    exact Option.noConfusion hc
  rw [getLast?_dropWhile isUnd _ hne, List.getLast?_reverse] at hc
  exact dropWhile_head_not isUnd l c hc

theorem stripU_last (l : List Char) :
    ∀ c, (stripU l).getLast? = some c → isUnd c = false := by
  intro c hc
  rw [stripU, List.getLast?_reverse] at hc
  exact dropWhile_head_not isUnd _ c hc

theorem noAdj_stripU (l : List Char) (h : NoAdj l) : NoAdj (stripU l) := by
  rw [stripU, noAdj_reverse]
  exact noAdj_dropWhile _ _ ((noAdj_reverse _).mpr (noAdj_dropWhile _ _ h))

theorem stripU_id (l : List Char)
    (h1 : ∀ c, l.head? = some c → isUnd c = false)
    (h2 : ∀ c, l.getLast? = some c → isUnd c = false) : stripU l = l := by
  rw [stripU, dropWhile_id_of_head isUnd l h1,
    dropWhile_id_of_head isUnd l.reverse
      (fun c hc => h2 c (by rwa [List.head?_reverse] at hc)),
    List.reverse_reverse]

theorem mem_collapseU (c : Char) (l : List Char) (h : c ∈ collapseU l) : c ∈ l := by
  induction l with
  | nil => simp [collapseU] at h
  | cons a rest ih =>
    rw [collapseU_cons] at h
    split at h
    · exact List.mem_cons_of_mem a (ih h)
    · rcases List.mem_cons.mp h with h1 | h1
      · exact h1 ▸ List.mem_cons_self a rest
      · exact List.mem_cons_of_mem a (ih h1)

theorem mem_stripU (c : Char) (l : List Char) (h : c ∈ stripU l) : c ∈ l := by
  rw [stripU, List.mem_reverse] at h
  have h2 := (List.dropWhile_sublist isUnd).subset h
  rw [List.mem_reverse] at h2
  exact (List.dropWhile_sublist isUnd).subset h2

theorem toNat_lowerChar_upper (c : Char) (h1 : 'A' ≤ c) (h2 : c ≤ 'Z') :
    (lowerChar c).toNat = c.toNat + 32 := by
  have hn1 : 65 ≤ c.toNat := h1
  have hn2 : c.toNat ≤ 90 := h2
  have hv : (c.toNat + 32).isValidChar := Or.inl (by omega)
  rw [lowerChar, if_pos (by simp [h1, h2]), Char.ofNat, dif_pos hv]
  rfl

theorem lowerChar_eq_underscore_iff (c : Char) : lowerChar c = '_' ↔ c = '_' := by
  by_cases h : (decide ('A' ≤ c) && decide (c ≤ 'Z')) = true
  · simp only [Bool.and_eq_true, decide_eq_true_eq] at h
    obtain ⟨h1, h2⟩ := h
    have hn1 : 65 ≤ c.toNat := h1
    have hn2 : c.toNat ≤ 90 := h2
    have ht := toNat_lowerChar_upper c h1 h2
    constructor
    · intro he
      exfalso
      rw [he] at ht
      have h95 : (95 : Nat) = c.toNat + 32 := ht
      omega
    · intro he
      exfalso
      rw [he] at hn2
      have h95 : (95 : Nat) ≤ 90 := hn2
      omega
  · rw [lowerChar, if_neg h]

theorem lowerChar_lowerChar (c : Char) : lowerChar (lowerChar c) = lowerChar c := by
  by_cases h : (decide ('A' ≤ c) && decide (c ≤ 'Z')) = true
  · simp only [Bool.and_eq_true, decide_eq_true_eq] at h
    obtain ⟨h1, h2⟩ := h
    have ht := toNat_lowerChar_upper c h1 h2
    have hn1 : 65 ≤ c.toNat := h1
    have hn2 : c.toNat ≤ 90 := h2
    rw [lowerChar, if_neg]
    intro hcond
    simp only [Bool.and_eq_true, decide_eq_true_eq] at hcond
    have hle : (lowerChar c).toNat ≤ 90 := hcond.2
    omega
  · rw [show lowerChar c = c from by rw [lowerChar, if_neg h]]
    rw [lowerChar, if_neg h]

theorem isWordChar_lowerChar (c : Char) (h : isWordChar c = true) :
    isWordChar (lowerChar c) = true := by
  by_cases hu : (decide ('A' ≤ c) && decide (c ≤ 'Z')) = true
  · simp only [Bool.and_eq_true, decide_eq_true_eq] at hu
    obtain ⟨h1, h2⟩ := hu
    have ht := toNat_lowerChar_upper c h1 h2
    have hn1 : 65 ≤ c.toNat := h1
    have hn2 : c.toNat ≤ 90 := h2
    have ha : 'a' ≤ lowerChar c := show 97 ≤ (lowerChar c).toNat by omega
    have hz : lowerChar c ≤ 'z' := show (lowerChar c).toNat ≤ 122 by omega
    simp [isWordChar, ha, hz]
  · rwa [show lowerChar c = c from by rw [lowerChar, if_neg hu]]

theorem lowerAll_lowerAll (l : List Char) : lowerAll (lowerAll l) = lowerAll l := by
  induction l with
  | nil => rfl
  | cons a rest ih =>
    show lowerChar (lowerChar a) :: lowerAll (lowerAll rest) = lowerChar a :: lowerAll rest
    rw [lowerChar_lowerChar, ih]

theorem noAdj_lowerAll (l : List Char) (h : NoAdj l) : NoAdj (lowerAll l) := by
  induction l with
  | nil => trivial
  | cons a rest ih =>
    rw [noAdj_cons_iff] at h
    show NoAdj (lowerChar a :: lowerAll rest)
    rw [noAdj_cons_iff]
    refine ⟨fun hc => ?_, ih h.2⟩
    obtain ⟨ha, hh⟩ := hc
    rw [lowerAll, List.head?_map] at hh
    cases hm : rest.head? with
    | none => rw [hm] at hh; exact Option.noConfusion hh
    | some b =>
      rw [hm] at hh
      simp only [Option.map_some'] at hh
      have hb : lowerChar b = '_' := Option.some.inj hh
      exact h.1 ⟨(lowerChar_eq_underscore_iff a).mp ha,
        hm ▸ congrArg some ((lowerChar_eq_underscore_iff b).mp hb)⟩

/-- Every character of the list lies in `[A-Za-z0-9_]`. -/
def AllWord (l : List Char) : Prop := ∀ c ∈ l, isWordChar c = true

theorem allWord_replaceBad (l : List Char) : AllWord (replaceBad l) := by
  intro c hc
  rw [replaceBad, List.mem_map] at hc
  obtain ⟨a, _, rfl⟩ := hc
  by_cases h : isWordChar a = true
  · rwa [if_pos h]
  · rw [if_neg h]
    decide

theorem replaceBad_id (l : List Char) (h : AllWord l) : replaceBad l = l := by
  induction l with
  | nil => rfl
  | cons a rest ih =>
    show (if isWordChar a then a else '_') :: replaceBad rest = a :: rest
    rw [if_pos (h a (List.mem_cons_self a rest)),
      ih (fun c hc => h c (List.mem_cons_of_mem a hc))]

theorem sanitizeCore_fixpoint (l : List Char) :
    sanitizeCore (sanitizeCore l) = sanitizeCore l := by
  have hall_t : AllWord (stripU (collapseU (replaceBad l))) := fun c hc =>
    allWord_replaceBad l c (mem_collapseU c _ (mem_stripU c _ hc))
  have hnoadj_t : NoAdj (stripU (collapseU (replaceBad l))) :=
    noAdj_stripU _ (noAdj_collapseU _)
  have hall_r : AllWord (sanitizeCore l) := by
    intro c hc
    rw [sanitizeCore, lowerAll, List.mem_map] at hc
    obtain ⟨a, ha, rfl⟩ := hc
    exact isWordChar_lowerChar a (hall_t a ha)
  have hnoadj_r : NoAdj (sanitizeCore l) := noAdj_lowerAll _ hnoadj_t
  have hhead_r : ∀ c, (sanitizeCore l).head? = some c → isUnd c = false := by
    intro c hc
    rw [sanitizeCore, lowerAll, List.head?_map] at hc
    cases hm : (stripU (collapseU (replaceBad l))).head? with
    | none => rw [hm] at hc; exact Option.noConfusion hc
    | some b =>
      rw [hm] at hc
      simp only [Option.map_some'] at hc
      have hb := stripU_head (collapseU (replaceBad l)) b hm
      have : c = lowerChar b := (Option.some.inj hc).symm
      subst this
      simp only [isUnd, beq_eq_false_iff_ne, ne_eq, lowerChar_eq_underscore_iff]
      simpa [isUnd] using hb
  have hlast_r : ∀ c, (sanitizeCore l).getLast? = some c → isUnd c = false := by
    intro c hc
    rw [sanitizeCore, lowerAll, List.getLast?_map] at hc
    cases hm : (stripU (collapseU (replaceBad l))).getLast? with
    | none => rw [hm] at hc; exact Option.noConfusion hc
    | some b =>
      rw [hm] at hc
      simp only [Option.map_some'] at hc
      have hb := stripU_last (collapseU (replaceBad l)) b hm
      have : c = lowerChar b := (Option.some.inj hc).symm
      subst this
      simp only [isUnd, beq_eq_false_iff_ne, ne_eq, lowerChar_eq_underscore_iff]
      simpa [isUnd] using hb
  calc sanitizeCore (sanitizeCore l)
      = lowerAll (stripU (collapseU (replaceBad (sanitizeCore l)))) := rfl
    _ = lowerAll (stripU (collapseU (sanitizeCore l))) := by
        rw [replaceBad_id _ hall_r]
    _ = lowerAll (stripU (sanitizeCore l)) := by rw [collapseU_of_noAdj _ hnoadj_r]
    _ = lowerAll (sanitizeCore l) := by rw [stripU_id _ hhead_r hlast_r]
    _ = lowerAll (lowerAll (stripU (collapseU (replaceBad l)))) := rfl
    _ = lowerAll (stripU (collapseU (replaceBad l))) := lowerAll_lowerAll _
    _ = sanitizeCore l := rfl

/-- Claim C8: `sanitizeName` is deterministic (a pure function of its
argument) and idempotent — re-sanitizing any output, the `"page"`
fallback included, returns it unchanged. -/
theorem sanitizeName_deterministic_idempotent (s : String) :
    sanitizeName s = sanitizeName s ∧
      sanitizeName (sanitizeName s) = sanitizeName s := by
  refine ⟨rfl, ?_⟩
  by_cases h : (sanitizeCore s.data).isEmpty = true
  · have h1 : sanitizeName s = "page" := by
      rw [sanitizeName, if_pos h]
    rw [h1]
    decide
  · have h1 : sanitizeName s = String.mk (sanitizeCore s.data) := by
      rw [sanitizeName, if_neg h]
    rw [h1]
    show (if (sanitizeCore (String.mk (sanitizeCore s.data)).data).isEmpty then "page"
      else String.mk (sanitizeCore (String.mk (sanitizeCore s.data)).data)) =
        String.mk (sanitizeCore s.data)
    have h2 : sanitizeCore (String.mk (sanitizeCore s.data)).data =
        sanitizeCore s.data := sanitizeCore_fixpoint s.data
    rw [h2, if_neg h]
